import Mathlib

/-!
Shallow embedding of the `MultiSim` class of `src/utility.py` (PyNN).

The Python class holds:
  * `sim_list` : the list of simulator backend modules, in registration order;
  * `nets`     : a dict mapping `sim.__name__` to `net(sim, parameters)`,
    built once in `__init__` by iterating `sim_list`.

Operations:
  * `__getattr__(name)` returns a closure that iterates `self.nets.items()`,
    calls `getattr(net, name)(*args, **kwargs)` on each net and collects the
    results in a dict keyed by the sim name (`iterate_over_nets`);
  * `run(simtime, steps=1, *callbacks)` computes `dt = float(simtime)/steps`
    and, for each of `steps` iterations, calls `sim.run(dt)` for each sim in
    `sim_list` and then each callback in order;
  * `end()` calls `sim.end()` for each sim in `sim_list`.

Modelling choices:
  * every downstream call (factory, `sim.run`, `sim.end`, a broadcast method
    call, a callback) is recorded as an `Event`, so ordering and fail-fast
    claims become statements about the produced trace;
  * a fallible Python call is a Lean function into `Except E _`; an exception
    propagating out of a loop is modelled by cutting the trace at the failing
    call and returning `Except.error`;
  * Python's `dict` is modelled as an association list with overwrite on an
    existing key (`insertOverwrite`); since CPython 2 dict iteration order is
    unspecified (hash-determined), no theorem relates the registry's
    iteration order to the registration order;
  * Python floats are modelled by `ℚ` with exact division (the spec's own
    rounding caveat is out of scope; the claims' concrete instance `10/5 = 2`
    is exact in binary floating point as well).
-/

namespace PyNN

/-- Events observable by the environment: each downstream call the
coordinator makes, identified by the backend name (or callback index). -/
inductive Event where
  | factoryCall (simName : String)
  | simRun (simName : String) (dt : ℚ)
  | callbackCall (idx : ℕ)
  | simEnd (simName : String)
  | netCall (simName : String)
  deriving DecidableEq, Repr

/-- A simulator backend module: its `__name__`, its module-level `run`
function and its module-level `end` function, each of which may raise. -/
structure Sim (E : Type) where
  name : String
  runOp : ℚ → Except E Unit
  endOp : Except E Unit

variable {E ν π ρ : Type}

/-- Python dict assignment `m[k] = v`: overwrite the value if the key is
present, otherwise add the new entry (here: append). CPython 2 iterates a
dict in an unspecified, hash-determined order, so the entry order of this
association list carries no contract; the claim theorems draw only
key-membership, key-set, last-writer-wins and entry-count conclusions from
the registry, never a conclusion relating its iteration order to the
registration order. -/
def insertOverwrite (m : List (String × ν)) (k : String) (v : ν) : List (String × ν) :=
  if m.any (fun p => p.1 = k) then
    m.map (fun p => if p.1 = k then (k, v) else p)
  else
    m ++ [(k, v)]

/-- Dictionary lookup `m[k]`, first (unique) entry with the given key. -/
def lookupNet (k : String) : List (String × ν) → Option ν
  | [] => none
  | (n, v) :: rest => if n = k then some v else lookupNet k rest

/-- Keys of an association list, in iteration order. -/
def keys (m : List (String × ν)) : List String := m.map Prod.fst

/-- Registry contents after a fully successful construction with total
factory `f`: the loop `for sim in sim_list: nets[sim.__name__] = f(sim)`. -/
def buildNetsOk (f : Sim E → ν) : List (Sim E) → List (String × ν) → List (String × ν)
  | [], acc => acc
  | s :: rest, acc => buildNetsOk f rest (insertOverwrite acc s.name (f s))

/-- The constructor loop of `MultiSim.__init__` with a fallible factory
`net(sim, parameters)`: returns the trace of factory calls and either the
finished registry or the first error raised (fail-fast, partial registry
discarded). -/
def initAux (net : Sim E → π → Except E ν) (params : π) :
    List (Sim E) → List (String × ν) → List Event × Except E (List (String × ν))
  | [], acc => ([], Except.ok acc)
  | s :: rest, acc =>
    match net s params with
    | Except.error e => ([Event.factoryCall s.name], Except.error e)
    | Except.ok v =>
      let p := initAux net params rest (insertOverwrite acc s.name v)
      (Event.factoryCall s.name :: p.1, p.2)

/-- The coordinator state: the ordered backend list and the name-keyed
registry of constructed model instances. -/
structure MultiSim (E ν : Type) where
  sim_list : List (Sim E)
  nets : List (String × ν)

/-- Construction `MultiSim(sim_list, net, parameters)`: builds the registry
by calling the factory once per backend, in order; any factory exception
propagates and no coordinator is returned. -/
def MultiSim.init (sim_list : List (Sim E)) (net : Sim E → π → Except E ν)
    (params : π) : List Event × Except E (MultiSim E ν) :=
  let p := initAux net params sim_list []
  (p.1, p.2.map (fun nets => ⟨sim_list, nets⟩))

/-- The fan-out closure returned by `MultiSim.__getattr__`: iterate over the
registry, call the looked-up method (here abstracted as `op`, the method with
its arguments already applied) on each net, collect results keyed by sim
name; any exception propagates and the partial result dict is discarded. -/
def iterate_over_nets (op : ν → Except E ρ) :
    List (String × ν) → List Event × Except E (List (String × ρ))
  | [] => ([], Except.ok [])
  | (n, v) :: rest =>
    match op v with
    | Except.error e => ([Event.netCall n], Except.error e)
    | Except.ok r =>
      let p := iterate_over_nets op rest
      (Event.netCall n :: p.1, p.2.map (fun m => (n, r) :: m))

/-- Broadcast `Invoke(op, args, kwargs)` on a coordinator (the proxy path of
`__getattr__`, taken for any attribute the class does not define itself). -/
def MultiSim.invoke (ms : MultiSim E ν) (op : ν → Except E ρ) :
    List Event × Except E (List (String × ρ)) :=
  iterate_over_nets op ms.nets

/-- Inner loop `for sim in self.sim_list: sim.run(dt)`, fail-fast. -/
def runSims (dt : ℚ) : List (Sim E) → List Event × Except E Unit
  | [] => ([], Except.ok ())
  | s :: rest =>
    match s.runOp dt with
    | Except.error e => ([Event.simRun s.name dt], Except.error e)
    | Except.ok _ =>
      let p := runSims dt rest
      (Event.simRun s.name dt :: p.1, p.2)

/-- Loop `for func in callbacks: func()`, fail-fast; callbacks are
identified by their position in the callback list. -/
def runCallbacks : List (Except E Unit) → ℕ → List Event × Except E Unit
  | [], _ => ([], Except.ok ())
  | c :: rest, i =>
    match c with
    | Except.error e => ([Event.callbackCall i], Except.error e)
    | Except.ok _ =>
      let p := runCallbacks rest (i + 1)
      (Event.callbackCall i :: p.1, p.2)

/-- Outer loop `for i in range(steps)` of `MultiSim.run`: per step, advance
every sim by `dt`, then fire every callback; fail-fast across steps. -/
def runSteps (sims : List (Sim E)) (dt : ℚ) (callbacks : List (Except E Unit)) :
    ℕ → List Event × Except E Unit
  | 0 => ([], Except.ok ())
  | Nat.succ n =>
    let p := runSims dt sims
    match p.2 with
    | Except.error e => (p.1, Except.error e)
    | Except.ok _ =>
      let q := runCallbacks callbacks 0
      match q.2 with
      | Except.error e => (p.1 ++ q.1, Except.error e)
      | Except.ok _ =>
        let r := runSteps sims dt callbacks n
        (p.1 ++ q.1 ++ r.1, r.2)

/-- Method `MultiSim.run(simtime, steps=1, *callbacks)`: computes
`dt = float(simtime)/steps` and runs the stepped loop. -/
def MultiSim.run (ms : MultiSim E ν) (simtime : ℚ) (steps : ℕ)
    (callbacks : List (Except E Unit)) : List Event × Except E Unit :=
  let dt := simtime / (steps : ℚ)
  runSteps ms.sim_list dt callbacks steps

/-- Loop `for sim in self.sim_list: sim.end()`, fail-fast. -/
def endSims : List (Sim E) → List Event × Except E Unit
  | [] => ([], Except.ok ())
  | s :: rest =>
    match s.endOp with
    | Except.error e => ([Event.simEnd s.name], Except.error e)
    | Except.ok _ =>
      let p := endSims rest
      (Event.simEnd s.name :: p.1, p.2)

/-- Method `MultiSim.end()`. -/
def MultiSim.teardown (ms : MultiSim E ν) : List Event × Except E Unit :=
  endSims ms.sim_list

/-- The sequence of backend names touched by a trace (callback events carry
no backend and are dropped). -/
def backendOrder (tr : List Event) : List String :=
  tr.filterMap (fun e =>
    match e with
    | Event.factoryCall n => some n
    | Event.simRun n _ => some n
    | Event.callbackCall _ => none
    | Event.simEnd n => some n
    | Event.netCall n => some n)

/-! Success-path and error-path characterizations of each loop. -/

theorem runSims_ok (dt : ℚ) (sims : List (Sim E))
    (h : ∀ s ∈ sims, s.runOp dt = Except.ok ()) :
    runSims dt sims = (sims.map (fun s => Event.simRun s.name dt), Except.ok ()) := by
  induction sims with
  | nil => simp [runSims]
  | cons s rest ih =>
    have hs : s.runOp dt = Except.ok () := h s (by simp)
    have hr := ih (fun t ht => h t (by simp [ht]))
    simp [runSims, hs, hr]

theorem runSims_error (dt : ℚ) (pre : List (Sim E)) (s : Sim E) (post : List (Sim E))
    (e : E) (h : ∀ t ∈ pre, t.runOp dt = Except.ok ())
    (hs : s.runOp dt = Except.error e) :
    runSims dt (pre ++ s :: post) =
      (pre.map (fun t => Event.simRun t.name dt) ++ [Event.simRun s.name dt],
       Except.error e) := by
  induction pre with
  | nil => simp [runSims, hs]
  | cons t rest ih =>
    have ht : t.runOp dt = Except.ok () := h t (by simp)
    have hr := ih (fun u hu => h u (by simp [hu]))
    simp [runSims, ht, hr]

theorem runCallbacks_ok (cbs : List (Except E Unit))
    (h : ∀ c ∈ cbs, c = Except.ok ()) :
    ∀ i, runCallbacks cbs i =
      ((List.range' i cbs.length).map Event.callbackCall, Except.ok ()) := by
  induction cbs with
  | nil => intro i; simp [runCallbacks]
  | cons c rest ih =>
    intro i
    have hc : c = Except.ok () := h c (by simp)
    have hr := ih (fun t ht => h t (by simp [ht])) (i + 1)
    simp [runCallbacks, hc, hr, List.range'_succ]

/-- One step's event block: every sim advanced by `dt`, then every callback. -/
def stepBlock (sims : List (Sim E)) (dt : ℚ) (ncbs : ℕ) : List Event :=
  sims.map (fun s => Event.simRun s.name dt) ++ (List.range ncbs).map Event.callbackCall

theorem runSteps_ok (sims : List (Sim E)) (dt : ℚ) (cbs : List (Except E Unit))
    (hs : ∀ s ∈ sims, s.runOp dt = Except.ok ())
    (hc : ∀ c ∈ cbs, c = Except.ok ()) :
    ∀ n, runSteps sims dt cbs n =
      ((List.replicate n (stepBlock sims dt cbs.length)).flatten, Except.ok ()) := by
  intro n
  induction n with
  | zero => simp [runSteps]
  | succ n ih =>
    simp [runSteps, runSims_ok dt sims hs, runCallbacks_ok cbs hc 0, ih,
      stepBlock, List.range_eq_range', List.replicate_succ]

theorem MultiSim.run_ok (ms : MultiSim E ν) (simtime : ℚ) (steps : ℕ)
    (cbs : List (Except E Unit))
    (hs : ∀ s ∈ ms.sim_list, s.runOp (simtime / (steps : ℚ)) = Except.ok ())
    (hc : ∀ c ∈ cbs, c = Except.ok ()) :
    ms.run simtime steps cbs =
      ((List.replicate steps
          (stepBlock ms.sim_list (simtime / (steps : ℚ)) cbs.length)).flatten,
       Except.ok ()) := by
  simp [MultiSim.run, runSteps_ok ms.sim_list _ cbs hs hc steps]

theorem endSims_ok (sims : List (Sim E)) (h : ∀ s ∈ sims, s.endOp = Except.ok ()) :
    endSims sims = (sims.map (fun s => Event.simEnd s.name), Except.ok ()) := by
  induction sims with
  | nil => simp [endSims]
  | cons s rest ih =>
    have hs : s.endOp = Except.ok () := h s (by simp)
    have hr := ih (fun t ht => h t (by simp [ht]))
    simp [endSims, hs, hr]

theorem endSims_error (pre : List (Sim E)) (s : Sim E) (post : List (Sim E)) (e : E)
    (h : ∀ t ∈ pre, t.endOp = Except.ok ()) (hs : s.endOp = Except.error e) :
    endSims (pre ++ s :: post) =
      (pre.map (fun t => Event.simEnd t.name) ++ [Event.simEnd s.name],
       Except.error e) := by
  induction pre with
  | nil => simp [endSims, hs]
  | cons t rest ih =>
    have ht : t.endOp = Except.ok () := h t (by simp)
    have hr := ih (fun u hu => h u (by simp [hu]))
    simp [endSims, ht, hr]

theorem iterate_over_nets_ok (op : ν → Except E ρ) (f : ν → ρ)
    (nets : List (String × ν)) (h : ∀ p ∈ nets, op p.2 = Except.ok (f p.2)) :
    iterate_over_nets op nets =
      (nets.map (fun p => Event.netCall p.1), Except.ok (nets.map (fun p => (p.1, f p.2)))) := by
  induction nets with
  | nil => simp [iterate_over_nets]
  | cons p rest ih =>
    obtain ⟨n, v⟩ := p
    have hp : op v = Except.ok (f v) := h (n, v) (by simp)
    have hr := ih (fun q hq => h q (by simp [hq]))
    simp [iterate_over_nets, hp, hr, Except.map]

theorem iterate_over_nets_error (op : ν → Except E ρ) (f : ν → ρ)
    (pre : List (String × ν)) (n : String) (v : ν) (post : List (String × ν)) (e : E)
    (h : ∀ p ∈ pre, op p.2 = Except.ok (f p.2)) (hv : op v = Except.error e) :
    iterate_over_nets op (pre ++ (n, v) :: post) =
      (pre.map (fun p => Event.netCall p.1) ++ [Event.netCall n], Except.error e) := by
  induction pre with
  | nil => simp [iterate_over_nets, hv]
  | cons q rest ih =>
    obtain ⟨m, w⟩ := q
    have hq : op w = Except.ok (f w) := h (m, w) (by simp)
    have hr := ih (fun r hrr => h r (by simp [hrr]))
    simp [iterate_over_nets, hq, hr, Except.map]

theorem initAux_ok (net : Sim E → π → Except E ν) (params : π) (f : Sim E → ν)
    (sims : List (Sim E)) (h : ∀ s ∈ sims, net s params = Except.ok (f s)) :
    ∀ acc, initAux net params sims acc =
      (sims.map (fun s => Event.factoryCall s.name), Except.ok (buildNetsOk f sims acc)) := by
  induction sims with
  | nil => intro acc; simp [initAux, buildNetsOk]
  | cons s rest ih =>
    intro acc
    have hs : net s params = Except.ok (f s) := h s (by simp)
    have hr := ih (fun t ht => h t (by simp [ht])) (insertOverwrite acc s.name (f s))
    simp [initAux, hs, hr, buildNetsOk]

theorem initAux_error (net : Sim E → π → Except E ν) (params : π) (f : Sim E → ν)
    (pre : List (Sim E)) (s : Sim E) (post : List (Sim E)) (e : E)
    (h : ∀ t ∈ pre, net t params = Except.ok (f t)) (hs : net s params = Except.error e) :
    ∀ acc, initAux net params (pre ++ s :: post) acc =
      (pre.map (fun t => Event.factoryCall t.name) ++ [Event.factoryCall s.name],
       Except.error e) := by
  induction pre with
  | nil => intro acc; simp [initAux, hs]
  | cons t rest ih =>
    intro acc
    have ht : net t params = Except.ok (f t) := h t (by simp)
    have hr := ih (fun u hu => h u (by simp [hu]))
    simp [initAux, ht, hr]

theorem MultiSim.init_ok (sim_list : List (Sim E)) (net : Sim E → π → Except E ν)
    (params : π) (f : Sim E → ν) (h : ∀ s ∈ sim_list, net s params = Except.ok (f s)) :
    MultiSim.init sim_list net params =
      (sim_list.map (fun s => Event.factoryCall s.name),
       Except.ok ⟨sim_list, buildNetsOk f sim_list []⟩) := by
  simp [MultiSim.init, initAux_ok net params f sim_list h, Except.map]

theorem MultiSim.init_error (net : Sim E → π → Except E ν) (params : π) (f : Sim E → ν)
    (pre : List (Sim E)) (s : Sim E) (post : List (Sim E)) (e : E)
    (h : ∀ t ∈ pre, net t params = Except.ok (f t)) (hs : net s params = Except.error e) :
    MultiSim.init (pre ++ s :: post) net params =
      (pre.map (fun t => Event.factoryCall t.name) ++ [Event.factoryCall s.name],
       Except.error e) := by
  simp [MultiSim.init, initAux_error net params f pre s post e h hs, Except.map]

/-! Dictionary lemmas: `insertOverwrite`, `lookupNet`, `buildNetsOk`. -/

theorem mem_keys {m : List (String × ν)} {k : String} :
    k ∈ keys m ↔ ∃ p ∈ m, p.1 = k := by
  simp [keys]

theorem insertOverwrite_not_mem (m : List (String × ν)) (k : String) (v : ν)
    (hk : k ∉ keys m) : insertOverwrite m k v = m ++ [(k, v)] := by
  have ha : m.any (fun p => p.1 = k) = false := by
    simp only [List.any_eq_false, decide_eq_true_eq]
    intro p hp hpk
    exact hk (mem_keys.mpr ⟨p, hp, hpk⟩)
  simp [insertOverwrite, ha]

theorem keys_insertOverwrite_mem (m : List (String × ν)) (k : String) (v : ν)
    (hk : k ∈ keys m) : keys (insertOverwrite m k v) = keys m := by
  have ha : m.any (fun p => p.1 = k) = true := by
    simp only [List.any_eq_true, decide_eq_true_eq]
    exact mem_keys.mp hk
  simp only [insertOverwrite, ha, if_true, keys, List.map_map]
  apply List.map_congr_left
  intro p _
  by_cases h : p.1 = k <;> simp [h]

theorem keys_insertOverwrite_toFinset (m : List (String × ν)) (k : String) (v : ν) :
    (keys (insertOverwrite m k v)).toFinset = insert k (keys m).toFinset := by
  by_cases hk : k ∈ keys m
  · rw [keys_insertOverwrite_mem m k v hk]
    exact (Finset.insert_eq_self.mpr (List.mem_toFinset.mpr hk)).symm
  · rw [insertOverwrite_not_mem m k v hk]
    have hkeys : keys (m ++ [(k, v)]) = keys m ++ [k] := by simp [keys]
    rw [hkeys, List.toFinset_append, List.toFinset_cons, List.toFinset_nil]
    rw [Finset.union_comm]
    exact (Finset.insert_eq k (keys m).toFinset).symm

theorem keys_insertOverwrite_nodup (m : List (String × ν)) (k : String) (v : ν)
    (h : (keys m).Nodup) : (keys (insertOverwrite m k v)).Nodup := by
  by_cases hk : k ∈ keys m
  · rw [keys_insertOverwrite_mem m k v hk]; exact h
  · rw [insertOverwrite_not_mem m k v hk]
    have hkeys : keys (m ++ [(k, v)]) = keys m ++ [k] := by simp [keys]
    rw [hkeys, List.nodup_append]
    refine ⟨h, List.nodup_singleton k, fun a ha hb => ?_⟩
    rw [List.mem_singleton] at hb
    exact hk (hb ▸ ha)

theorem lookupNet_eq_none (m : List (String × ν)) (k : String) (hk : k ∉ keys m) :
    lookupNet k m = none := by
  induction m with
  | nil => rfl
  | cons p m ih =>
    obtain ⟨n, w⟩ := p
    have hn : n ≠ k := fun h => hk (mem_keys.mpr ⟨(n, w), by simp, h⟩)
    have hm : k ∉ keys m := fun h => hk (by
      rcases mem_keys.mp h with ⟨q, hq, hqk⟩
      exact mem_keys.mpr ⟨q, by simp [hq], hqk⟩)
    simp [lookupNet, hn, ih hm]

theorem lookupNet_append_of_mem (m rest : List (String × ν)) (k : String)
    (hk : k ∈ keys m) : lookupNet k (m ++ rest) = lookupNet k m := by
  induction m with
  | nil => simp [keys] at hk
  | cons p m ih =>
    obtain ⟨n, v⟩ := p
    by_cases h : n = k
    · simp [lookupNet, h]
    · have : k ∈ keys m := by
        rcases mem_keys.mp hk with ⟨q, hq, hqk⟩
        rcases List.mem_cons.mp hq with rfl | hq2
        · exact absurd hqk h
        · exact mem_keys.mpr ⟨q, hq2, hqk⟩
      simp [lookupNet, h, ih this]

theorem lookupNet_append_not_mem (m rest : List (String × ν)) (k : String)
    (hk : k ∉ keys m) : lookupNet k (m ++ rest) = lookupNet k rest := by
  induction m with
  | nil => simp
  | cons p m ih =>
    obtain ⟨n, v⟩ := p
    have hn : n ≠ k := fun h => hk (mem_keys.mpr ⟨(n, v), by simp, h⟩)
    have hm : k ∉ keys m := fun h => hk (by
      rcases mem_keys.mp h with ⟨q, hq, hqk⟩
      exact mem_keys.mpr ⟨q, by simp [hq], hqk⟩)
    simp [lookupNet, hn, ih hm]

theorem lookupNet_map_self (m : List (String × ν)) (k : String) (v : ν)
    (hk : k ∈ keys m) :
    lookupNet k (m.map (fun p => if p.1 = k then (k, v) else p)) = some v := by
  induction m with
  | nil => simp [keys] at hk
  | cons p m ih =>
    obtain ⟨n, w⟩ := p
    by_cases h : n = k
    · subst h
      have hhead : (if ((n, w) : String × ν).1 = n then (n, v) else (n, w))
          = (n, v) := by simp
      rw [List.map_cons, hhead]
      simp [lookupNet]
    · have hk2 : k ∈ keys m := by
        rcases mem_keys.mp hk with ⟨q, hq, hqk⟩
        rcases List.mem_cons.mp hq with rfl | hq2
        · exact absurd hqk h
        · exact mem_keys.mpr ⟨q, hq2, hqk⟩
      have hhead : (if ((n, w) : String × ν).1 = k then (k, v) else (n, w))
          = (n, w) := by simp [h]
      rw [List.map_cons, hhead]
      simp [lookupNet, h, ih hk2]

theorem lookupNet_map_ne (m : List (String × ν)) (k : String) (v : ν)
    (k2 : String) (h : k2 ≠ k) :
    lookupNet k2 (m.map (fun p => if p.1 = k then (k, v) else p)) = lookupNet k2 m := by
  have hkk : k ≠ k2 := Ne.symm h
  induction m with
  | nil => simp
  | cons p m ih =>
    obtain ⟨n, w⟩ := p
    by_cases hn : n = k
    · subst hn
      have hhead : (if ((n, w) : String × ν).1 = n then (n, v) else (n, w))
          = (n, v) := by simp
      rw [List.map_cons, hhead]
      simp [lookupNet, hkk, ih]
    · have hhead : (if ((n, w) : String × ν).1 = k then (k, v) else (n, w))
          = (n, w) := by simp [hn]
      rw [List.map_cons, hhead]
      by_cases hnk : n = k2
      · simp [lookupNet, hnk]
      · simp [lookupNet, hnk, ih]

theorem any_keys_true {m : List (String × ν)} {k : String} (hk : k ∈ keys m) :
    (m.any (fun p => p.1 = k)) = true := by
  simp only [List.any_eq_true, decide_eq_true_eq]
  exact mem_keys.mp hk

theorem lookupNet_insertOverwrite_self (m : List (String × ν)) (k : String) (v : ν) :
    lookupNet k (insertOverwrite m k v) = some v := by
  by_cases hk : k ∈ keys m
  · simp only [insertOverwrite, any_keys_true hk, if_true]
    exact lookupNet_map_self m k v hk
  · rw [insertOverwrite_not_mem m k v hk, lookupNet_append_not_mem m _ k hk]
    simp [lookupNet]

theorem lookupNet_insertOverwrite_ne (m : List (String × ν)) (k : String) (v : ν)
    (k2 : String) (h : k2 ≠ k) :
    lookupNet k2 (insertOverwrite m k v) = lookupNet k2 m := by
  by_cases hk : k ∈ keys m
  · simp only [insertOverwrite, any_keys_true hk, if_true]
    exact lookupNet_map_ne m k v k2 h
  · rw [insertOverwrite_not_mem m k v hk]
    by_cases hk2 : k2 ∈ keys m
    · exact lookupNet_append_of_mem m _ k2 hk2
    · rw [lookupNet_append_not_mem m _ k2 hk2, lookupNet_eq_none m k2 hk2]
      simp [lookupNet, Ne.symm h]

/-! Structural lemmas about the registry built by the constructor loop. -/

theorem buildNetsOk_append (f : Sim E → ν) (l1 l2 : List (Sim E)) :
    ∀ acc, buildNetsOk f (l1 ++ l2) acc = buildNetsOk f l2 (buildNetsOk f l1 acc) := by
  induction l1 with
  | nil => intro acc; simp [buildNetsOk]
  | cons s rest ih => intro acc; simp [buildNetsOk, ih]

theorem keys_buildNetsOk_nodup (f : Sim E → ν) (sims : List (Sim E)) :
    ∀ acc, (keys acc).Nodup → (keys (buildNetsOk f sims acc)).Nodup := by
  induction sims with
  | nil => intro acc h; simpa [buildNetsOk] using h
  | cons s rest ih =>
    intro acc h
    exact ih _ (keys_insertOverwrite_nodup acc s.name (f s) h)

theorem keys_buildNetsOk_toFinset (f : Sim E → ν) (sims : List (Sim E)) :
    ∀ acc, (keys (buildNetsOk f sims acc)).toFinset
      = (keys acc).toFinset ∪ (sims.map Sim.name).toFinset := by
  induction sims with
  | nil => intro acc; simp [buildNetsOk]
  | cons s rest ih =>
    intro acc
    rw [buildNetsOk, ih, keys_insertOverwrite_toFinset]
    simp [Finset.insert_union, Finset.union_insert]

/-- The element of `sims` whose factory result ends up under key `n`:
the LAST list element carrying that name (later construction overwrites
earlier ones in the registry). -/
def lastWithName (n : String) (sims : List (Sim E)) : Option (Sim E) :=
  (sims.filter (fun s => s.name = n)).getLast?

theorem lookupNet_buildNetsOk (f : Sim E → ν) (n : String) (sims : List (Sim E)) :
    ∀ acc, lookupNet n (buildNetsOk f sims acc)
      = (lastWithName n sims).elim (lookupNet n acc) (fun s => some (f s)) := by
  induction sims using List.reverseRecOn with
  | nil => intro acc; simp [buildNetsOk, lastWithName]
  | append_singleton l s ih =>
    intro acc
    rw [buildNetsOk_append]
    simp only [buildNetsOk]
    by_cases hs : s.name = n
    · rw [← hs, lookupNet_insertOverwrite_self]
      simp [lastWithName, List.filter_append, hs]
    · rw [lookupNet_insertOverwrite_ne _ _ _ _ (fun he => hs he.symm), ih acc]
      simp [lastWithName, List.filter_append, hs]

theorem buildNetsOk_length_lt (f : Sim E → ν) (sims : List (Sim E))
    (h : ¬(sims.map Sim.name).Nodup) :
    (buildNetsOk f sims []).length < sims.length := by
  have h1 : (keys (buildNetsOk f sims [])).Nodup :=
    keys_buildNetsOk_nodup f sims [] (by simp [keys])
  have h2 : (keys (buildNetsOk f sims [])).toFinset = (sims.map Sim.name).toFinset := by
    rw [keys_buildNetsOk_toFinset]; simp [keys]
  have h3 : (buildNetsOk f sims []).length = (keys (buildNetsOk f sims [])).length := by
    simp [keys]
  have h4 : (keys (buildNetsOk f sims [])).length
      = (sims.map Sim.name).toFinset.card := by
    rw [← h2, List.toFinset_card_of_nodup h1]
  have h5 : (sims.map Sim.name).toFinset.card = (sims.map Sim.name).dedup.length :=
    List.card_toFinset _
  have h6 : (sims.map Sim.name).dedup.length < (sims.map Sim.name).length := by
    refine lt_of_le_of_ne ((sims.map Sim.name).dedup_sublist.length_le) ?_
    intro heq
    exact h (List.dedup_eq_self.mp ((sims.map Sim.name).dedup_sublist.eq_of_length heq))
  rw [h3, h4, h5]
  simpa using h6

/-! Helpers for extracting backend order and call counts from traces. -/

theorem backendOrder_map_simRun (dt : ℚ) (sims : List (Sim E)) :
    backendOrder (sims.map (fun s => Event.simRun s.name dt)) = sims.map Sim.name := by
  induction sims with
  | nil => rfl
  | cons s rest ih => simp [backendOrder] at ih ⊢; exact ih

theorem backendOrder_map_simEnd (sims : List (Sim E)) :
    backendOrder (sims.map (fun s => Event.simEnd s.name)) = sims.map Sim.name := by
  induction sims with
  | nil => rfl
  | cons s rest ih => simp [backendOrder] at ih ⊢; exact ih

theorem count_simRun_map (dt : ℚ) (nm : String) (sims : List (Sim E)) :
    (sims.map (fun t => Event.simRun t.name dt)).count (Event.simRun nm dt)
      = (sims.map Sim.name).count nm := by
  induction sims with
  | nil => rfl
  | cons s rest ih =>
    by_cases h : s.name = nm <;> simp [List.count_cons, h, ih]

theorem count_simRun_callbackCalls (dt : ℚ) (nm : String) (l : List ℕ) :
    (l.map Event.callbackCall).count (Event.simRun nm dt) = 0 := by
  rw [List.count_eq_zero]
  simp

theorem count_callback_map (i : ℕ) (l : List ℕ) :
    (l.map Event.callbackCall).count (Event.callbackCall i) = l.count i := by
  induction l with
  | nil => rfl
  | cons j rest ih =>
    by_cases h : j = i <;> simp [List.count_cons, h, ih]

theorem count_callback_simRuns (i : ℕ) (dt : ℚ) (sims : List (Sim E)) :
    (sims.map (fun s => Event.simRun s.name dt)).count (Event.callbackCall i) = 0 := by
  rw [List.count_eq_zero]
  simp

/-! Concrete backends used to instantiate the theorems below. -/

/-- A backend named "a" whose run and end always succeed. -/
def simA : Sim String := ⟨"a", fun _ => Except.ok (), Except.ok ()⟩

/-- A backend named "b" whose run and end always succeed. -/
def simB : Sim String := ⟨"b", fun _ => Except.ok (), Except.ok ()⟩

/-- A second, distinct backend also named "a" (run rejects negative time). -/
def simAdup : Sim String :=
  ⟨"a", fun dt => if dt < 0 then Except.error "neg" else Except.ok (), Except.ok ()⟩

/-- A backend whose run always raises. -/
def simFailRun : Sim String := ⟨"f", fun _ => Except.error "run boom", Except.ok ()⟩

/-- A backend whose end always raises. -/
def simFailEnd : Sim String := ⟨"g", fun _ => Except.ok (), Except.error "end boom"⟩

/-! Claim theorems. -/

/-- C3: for a broadcast operation (the `__getattr__` proxy path, taken for any
name the class does not define itself, hence not `run` or `end`) whose
per-instance calls all succeed, `Invoke` returns the mapping whose key list
equals the registry's key list and whose value at each backend handle is that
instance's own result. -/
theorem c3_invoke_success (ms : MultiSim E ν) (op : ν → Except E ρ) (f : ν → ρ)
    (h : ∀ p ∈ ms.nets, op p.2 = Except.ok (f p.2)) :
    (ms.invoke op).2 = Except.ok (ms.nets.map (fun p => (p.1, f p.2)))
    ∧ keys (ms.nets.map (fun p => (p.1, f p.2))) = keys ms.nets := by
  constructor
  · rw [MultiSim.invoke, iterate_over_nets_ok op f ms.nets h]
  · simp [keys]

/-- Witness for C3 at a concrete two-entry registry. -/
theorem c3_invoke_success_witness :
    (MultiSim.invoke (⟨[], [("a", 1), ("b", 2)]⟩ : MultiSim String ℕ)
        (fun v => (Except.ok (v * 10) : Except String ℕ))).2
      = Except.ok [("a", 10), ("b", 20)]
    ∧ keys ([("a", 10), ("b", 20)] : List (String × ℕ)) = keys [("a", 1), ("b", 2)] := by
  have h := c3_invoke_success (⟨[], [("a", 1), ("b", 2)]⟩ : MultiSim String ℕ)
    (fun v => (Except.ok (v * 10) : Except String ℕ)) (fun v => v * 10) (fun p _ => rfl)
  exact ⟨by simpa using h.1, by simpa using h.2⟩

/-- C4: if instance k raises during a broadcast, `Invoke` raises that same
error and returns no result mapping (results already produced for instances
before k are discarded); the event trace ends at k's call, so no call is made
on instances after k. -/
theorem c4_invoke_failfast (ms : MultiSim E ν) (op : ν → Except E ρ) (f : ν → ρ)
    (pre : List (String × ν)) (n : String) (v : ν) (post : List (String × ν)) (e : E)
    (hnets : ms.nets = pre ++ (n, v) :: post)
    (h : ∀ p ∈ pre, op p.2 = Except.ok (f p.2)) (hv : op v = Except.error e) :
    ms.invoke op
      = (pre.map (fun p => Event.netCall p.1) ++ [Event.netCall n], Except.error e) := by
  rw [MultiSim.invoke, hnets]
  exact iterate_over_nets_error op f pre n v post e h hv

/-- Witness for C4: the middle instance of three raises. -/
theorem c4_invoke_failfast_witness :
    MultiSim.invoke (⟨[], [("a", 1), ("b", 2), ("c", 3)]⟩ : MultiSim String ℕ)
        (fun v => if v < 2 then Except.ok v else Except.error "boom")
      = ([Event.netCall "a", Event.netCall "b"], Except.error "boom") := by
  have h := c4_invoke_failfast (⟨[], [("a", 1), ("b", 2), ("c", 3)]⟩ : MultiSim String ℕ)
    (fun v => if v < 2 then Except.ok v else Except.error "boom") (fun v => v)
    [("a", 1)] "b" 2 [("c", 3)] "boom" rfl
    (fun p hp => by rcases List.mem_singleton.mp hp with rfl; rfl) rfl
  simpa using h

/-- C6: `End()` invokes each backend's end exactly once, in registration
order, when all succeed; if backend k's end raises, the same error propagates
immediately and the trace ends at k, so no backend after k receives its end
call. -/
theorem c6_teardown (ms : MultiSim E ν) :
    ((∀ s ∈ ms.sim_list, s.endOp = Except.ok ()) →
      ms.teardown = (ms.sim_list.map (fun s => Event.simEnd s.name), Except.ok ()))
    ∧ ∀ pre s post e, ms.sim_list = pre ++ s :: post →
        (∀ t ∈ pre, t.endOp = Except.ok ()) → s.endOp = Except.error e →
        ms.teardown
          = (pre.map (fun t => Event.simEnd t.name) ++ [Event.simEnd s.name],
             Except.error e) := by
  constructor
  · intro h
    rw [MultiSim.teardown, endSims_ok ms.sim_list h]
  · intro pre s post e hl h hs
    rw [MultiSim.teardown, hl]
    exact endSims_error pre s post e h hs

/-- Witness for C6: both branches at concrete backend lists. -/
theorem c6_teardown_witness :
    MultiSim.teardown (⟨[simA, simB], []⟩ : MultiSim String ℕ)
      = ([Event.simEnd "a", Event.simEnd "b"], Except.ok ())
    ∧ MultiSim.teardown (⟨[simA, simFailEnd, simB], []⟩ : MultiSim String ℕ)
      = ([Event.simEnd "a", Event.simEnd "g"], Except.error "end boom") := by
  constructor
  · have h := (c6_teardown (⟨[simA, simB], []⟩ : MultiSim String ℕ)).1
      (fun s hs => by
        rcases List.mem_cons.mp hs with rfl | hs2
        · rfl
        · rcases List.mem_singleton.mp hs2 with rfl; rfl)
    simpa [simA, simB] using h
  · have h := (c6_teardown (⟨[simA, simFailEnd, simB], []⟩ : MultiSim String ℕ)).2
      [simA] simFailEnd [simB] "end boom" rfl
      (fun t ht => by rcases List.mem_singleton.mp ht with rfl; rfl) rfl
    simpa [simA, simFailEnd] using h

/-- C7: constructing the coordinator from a non-empty backend list with an
always-succeeding factory calls the factory once per handle, in list order,
and succeeds with a registry whose key set equals the set of backend names
and which holds exactly one entry per handle (its keys are duplicate-free). -/
theorem c7_construction (sims : List (Sim E)) (net : Sim E → π → Except E ν)
    (params : π) (f : Sim E → ν) (hne : sims ≠ [])
    (hf : ∀ s ∈ sims, net s params = Except.ok (f s)) :
    MultiSim.init sims net params
      = (sims.map (fun s => Event.factoryCall s.name),
         Except.ok ⟨sims, buildNetsOk f sims []⟩)
    ∧ (keys (buildNetsOk f sims [])).toFinset = (sims.map Sim.name).toFinset
    ∧ (keys (buildNetsOk f sims [])).Nodup := by
  refine ⟨MultiSim.init_ok sims net params f hf, ?_,
    keys_buildNetsOk_nodup f sims [] (by simp [keys])⟩
  rw [keys_buildNetsOk_toFinset]
  simp [keys]

/-- Witness for C7 at a concrete two-backend list. -/
theorem c7_construction_witness :
    MultiSim.init [simA, simB] (fun s _ => (Except.ok s.name : Except String String)) ()
      = ([Event.factoryCall "a", Event.factoryCall "b"],
         Except.ok ⟨[simA, simB], [("a", "a"), ("b", "b")]⟩)
    ∧ keys (buildNetsOk (fun s => s.name) [simA, simB] []) = ["a", "b"] := by
  have h := c7_construction [simA, simB]
    (fun s _ => (Except.ok s.name : Except String String)) () (fun s => s.name)
    (by simp) (fun s _ => rfl)
  constructor
  · have h1 := h.1
    simpa [simA, simB, buildNetsOk, insertOverwrite] using h1
  · simp [simA, simB, buildNetsOk, insertOverwrite, keys]

/-- C8: if a factory call raises during construction, that exception
propagates, no coordinator or partial registry is returned, every handle
before the failing one had its factory called (in order) and no handle after
it does. -/
theorem c8_construction_failfast (net : Sim E → π → Except E ν) (params : π)
    (f : Sim E → ν) (pre : List (Sim E)) (s : Sim E) (post : List (Sim E)) (e : E)
    (h : ∀ t ∈ pre, net t params = Except.ok (f t)) (hs : net s params = Except.error e) :
    MultiSim.init (pre ++ s :: post) net params
      = (pre.map (fun t => Event.factoryCall t.name) ++ [Event.factoryCall s.name],
         Except.error e) :=
  MultiSim.init_error net params f pre s post e h hs

/-- Witness for C8: the factory fails on the middle backend of three. -/
theorem c8_construction_failfast_witness :
    MultiSim.init [simA, simB, simAdup]
        (fun s _ => if s.name = "b" then (Except.error "factory boom" : Except String String)
          else Except.ok s.name) ()
      = ([Event.factoryCall "a", Event.factoryCall "b"], Except.error "factory boom") := by
  have h := c8_construction_failfast
    (fun (s : Sim String) (_ : Unit) =>
      if s.name = "b" then (Except.error "factory boom" : Except String String)
      else Except.ok s.name) () (fun s => s.name)
    [simA] simB [simAdup] "factory boom"
    (fun t ht => by rcases List.mem_singleton.mp ht with rfl; rfl) rfl
  simpa [simA, simB] using h

/-- C2: for positive `totalTime` and `steps ≥ 1`, `Run` computes
`perStepTime = totalTime / steps` and, when every per-backend run call
succeeds, invokes each registered backend's `run(perStepTime)` exactly
`steps` times, in backend order within each step (the trace is `steps`
identical blocks, each listing the backends in registration order). -/
theorem c2_run_per_step (ms : MultiSim E ν) (simtime : ℚ) (steps : ℕ)
    (cbs : List (Except E Unit)) (hpos : 0 < simtime) (hsteps : 1 ≤ steps)
    (hnd : (ms.sim_list.map Sim.name).Nodup)
    (hok : ∀ s ∈ ms.sim_list, s.runOp (simtime / (steps : ℚ)) = Except.ok ())
    (hcb : ∀ c ∈ cbs, c = Except.ok ()) :
    ms.run simtime steps cbs
      = ((List.replicate steps
            (stepBlock ms.sim_list (simtime / (steps : ℚ)) cbs.length)).flatten,
         Except.ok ())
    ∧ ∀ s ∈ ms.sim_list,
        (ms.run simtime steps cbs).1.count
            (Event.simRun s.name (simtime / (steps : ℚ))) = steps := by
  have hrun := MultiSim.run_ok ms simtime steps cbs hok hcb
  refine ⟨hrun, fun s hs => ?_⟩
  rw [hrun]
  have hblock : (stepBlock ms.sim_list (simtime / (steps : ℚ)) cbs.length).count
      (Event.simRun s.name (simtime / (steps : ℚ))) = 1 := by
    rw [stepBlock, List.count_append, count_simRun_map, count_simRun_callbackCalls,
      List.count_eq_one_of_mem hnd (List.mem_map_of_mem Sim.name hs)]
  rw [List.count_flatten, List.map_replicate, hblock, List.sum_replicate,
    smul_eq_mul, mul_one]

/-- Witness for C2 at the claim's concrete instance: `Run(10, 5, [])` on two
backends invokes `run(2)` exactly 5 times on each. -/
theorem c2_run_per_step_witness :
    MultiSim.run (⟨[simA, simB], [("a", 0), ("b", 0)]⟩ : MultiSim String ℕ) 10 5 []
      = ([Event.simRun "a" 2, Event.simRun "b" 2, Event.simRun "a" 2,
          Event.simRun "b" 2, Event.simRun "a" 2, Event.simRun "b" 2,
          Event.simRun "a" 2, Event.simRun "b" 2, Event.simRun "a" 2,
          Event.simRun "b" 2], Except.ok ())
    ∧ ((MultiSim.run (⟨[simA, simB], [("a", 0), ("b", 0)]⟩ : MultiSim String ℕ)
          10 5 []).1.count (Event.simRun "a" 2) = 5
        ∧ (MultiSim.run (⟨[simA, simB], [("a", 0), ("b", 0)]⟩ : MultiSim String ℕ)
            10 5 []).1.count (Event.simRun "b" 2) = 5) := by
  have h := c2_run_per_step (⟨[simA, simB], [("a", 0), ("b", 0)]⟩ : MultiSim String ℕ)
    10 5 [] (by norm_num) (by norm_num) (by simp [simA, simB])
    (fun s hs => by
      rcases List.mem_cons.mp hs with rfl | hs2
      · rfl
      · rcases List.mem_singleton.mp hs2 with rfl; rfl)
    (fun c hc => by simp at hc)
  have hdt : ((10 : ℚ) / ((5 : ℕ) : ℚ)) = 2 := by norm_num
  refine ⟨?_, ?_, ?_⟩
  · have h1 := h.1
    rw [hdt] at h1
    simpa [stepBlock, simA, simB, List.replicate, List.flatten] using h1
  · have h2 := h.2 simA (by simp)
    rw [hdt] at h2
    simpa [simA] using h2
  · have h2 := h.2 simB (by simp [simB])
    rw [hdt] at h2
    simpa [simB] using h2

/-- C5: `Run(T, S, [cb])`, when every run call and the callback succeed,
invokes `cb` exactly `S` times; the trace is `S` blocks in which every
backend's run event precedes the single callback event of that step, so a
callback invocation never comes between two run calls of the same step. -/
theorem c5_callbacks_after_step (ms : MultiSim E ν) (simtime : ℚ) (steps : ℕ)
    (cb : Except E Unit) (hsteps : 1 ≤ steps)
    (hok : ∀ s ∈ ms.sim_list, s.runOp (simtime / (steps : ℚ)) = Except.ok ())
    (hcb : cb = Except.ok ()) :
    ms.run simtime steps [cb]
      = ((List.replicate steps
            ((ms.sim_list.map fun s => Event.simRun s.name (simtime / (steps : ℚ)))
              ++ [Event.callbackCall 0])).flatten,
         Except.ok ())
    ∧ (ms.run simtime steps [cb]).1.count (Event.callbackCall 0) = steps := by
  have hrun := MultiSim.run_ok ms simtime steps [cb] hok
    (fun c hc => by rcases List.mem_singleton.mp hc with rfl; exact hcb)
  have hblock : stepBlock ms.sim_list (simtime / (steps : ℚ)) ([cb].length)
      = (ms.sim_list.map fun s => Event.simRun s.name (simtime / (steps : ℚ)))
          ++ [Event.callbackCall 0] := by
    have h1 : List.range 1 = [0] := rfl
    simp [stepBlock, h1]
  rw [hblock] at hrun
  refine ⟨hrun, ?_⟩
  rw [hrun]
  have hcount : ((ms.sim_list.map fun s => Event.simRun s.name (simtime / (steps : ℚ)))
      ++ [Event.callbackCall 0]).count (Event.callbackCall 0) = 1 := by
    rw [List.count_append, count_callback_simRuns]
    rfl
  rw [List.count_flatten, List.map_replicate, hcount, List.sum_replicate,
    smul_eq_mul, mul_one]

/-- Witness for C5: two backends, three steps, one callback. -/
theorem c5_callbacks_after_step_witness :
    MultiSim.run (⟨[simA, simB], [("a", 0), ("b", 0)]⟩ : MultiSim String ℕ) 6 3
        [Except.ok ()]
      = ([Event.simRun "a" 2, Event.simRun "b" 2, Event.callbackCall 0,
          Event.simRun "a" 2, Event.simRun "b" 2, Event.callbackCall 0,
          Event.simRun "a" 2, Event.simRun "b" 2, Event.callbackCall 0],
         Except.ok ())
    ∧ (MultiSim.run (⟨[simA, simB], [("a", 0), ("b", 0)]⟩ : MultiSim String ℕ) 6 3
        [Except.ok ()]).1.count (Event.callbackCall 0) = 3 := by
  have h := c5_callbacks_after_step
    (⟨[simA, simB], [("a", 0), ("b", 0)]⟩ : MultiSim String ℕ) 6 3 (Except.ok ())
    (by norm_num)
    (fun s hs => by
      rcases List.mem_cons.mp hs with rfl | hs2
      · rfl
      · rcases List.mem_singleton.mp hs2 with rfl; rfl)
    rfl
  have hdt : ((6 : ℚ) / ((3 : ℕ) : ℚ)) = 2 := by norm_num
  constructor
  · have h1 := h.1
    rw [hdt] at h1
    simpa [simA, simB, List.replicate, List.flatten] using h1
  · exact h.2

/-- C9: constructing a coordinator from an empty backend list succeeds (the
spec's non-emptiness constraint is not enforced by the code) and yields an
empty registry; `Run` on it performs no per-backend run call yet still fires
every callback exactly `steps` times, and `End()` makes no call and returns
normally. -/
theorem c9_empty_backends (net : Sim E → π → Except E ν) (params : π) (simtime : ℚ)
    (steps : ℕ) (cbs : List (Except E Unit)) (hsteps : 1 ≤ steps)
    (hcb : ∀ c ∈ cbs, c = Except.ok ()) :
    MultiSim.init ([] : List (Sim E)) net params
      = ([], Except.ok (⟨[], []⟩ : MultiSim E ν))
    ∧ MultiSim.run (⟨[], []⟩ : MultiSim E ν) simtime steps cbs
        = ((List.replicate steps ((List.range cbs.length).map Event.callbackCall)).flatten,
           Except.ok ())
    ∧ (∀ i, i < cbs.length →
        (MultiSim.run (⟨[], []⟩ : MultiSim E ν) simtime steps cbs).1.count
            (Event.callbackCall i) = steps)
    ∧ (∀ nm dt, Event.simRun nm dt ∉
        (MultiSim.run (⟨[], []⟩ : MultiSim E ν) simtime steps cbs).1)
    ∧ MultiSim.teardown (⟨[], []⟩ : MultiSim E ν) = ([], Except.ok ()) := by
  have hrun := MultiSim.run_ok (⟨[], []⟩ : MultiSim E ν) simtime steps cbs
    (fun s hs => by simp at hs) hcb
  have hblock : stepBlock ([] : List (Sim E)) (simtime / (steps : ℚ)) cbs.length
      = (List.range cbs.length).map Event.callbackCall := by
    simp [stepBlock]
  rw [hblock] at hrun
  refine ⟨?_, hrun, ?_, ?_, ?_⟩
  · simp [MultiSim.init, initAux, Except.map]
  · intro i hi
    rw [hrun]
    have hcount : ((List.range cbs.length).map Event.callbackCall).count
        (Event.callbackCall i) = 1 := by
      rw [count_callback_map]
      exact List.count_eq_one_of_mem (List.nodup_range _) (List.mem_range.mpr hi)
    rw [List.count_flatten, List.map_replicate, hcount, List.sum_replicate,
      smul_eq_mul, mul_one]
  · intro nm dt hmem
    rw [hrun] at hmem
    simp only [List.mem_flatten, List.mem_replicate] at hmem
    obtain ⟨l, ⟨-, rfl⟩, hm⟩ := hmem
    simp at hm
  · rfl

/-- Witness for C9: empty backend list, two callbacks, two steps. -/
theorem c9_empty_backends_witness :
    MultiSim.init ([] : List (Sim String)) (fun _ _ => (Except.ok 0 : Except String ℕ)) ()
      = ([], Except.ok ⟨[], []⟩)
    ∧ MultiSim.run (⟨[], []⟩ : MultiSim String ℕ) 4 2 [Except.ok (), Except.ok ()]
      = ([Event.callbackCall 0, Event.callbackCall 1, Event.callbackCall 0,
          Event.callbackCall 1], Except.ok ())
    ∧ (MultiSim.run (⟨[], []⟩ : MultiSim String ℕ) 4 2
        [Except.ok (), Except.ok ()]).1.count (Event.callbackCall 0) = 2
    ∧ Event.simRun "x" 2 ∉ (MultiSim.run (⟨[], []⟩ : MultiSim String ℕ) 4 2
        [Except.ok (), Except.ok ()]).1
    ∧ MultiSim.teardown (⟨[], []⟩ : MultiSim String ℕ) = ([], Except.ok ()) := by
  have h := c9_empty_backends
    (fun (_ : Sim String) (_ : Unit) => (Except.ok 0 : Except String ℕ)) () 4 2
    [Except.ok (), Except.ok ()] (by norm_num)
    (fun c hc => by
      rcases List.mem_cons.mp hc with rfl | hc2
      · rfl
      · rcases List.mem_singleton.mp hc2 with rfl; rfl)
  exact ⟨h.1, h.2.1, h.2.2.1 0 (by norm_num), h.2.2.2.1 "x" 2, h.2.2.2.2⟩

/-- C10: with duplicate backend names, the registry maps each name to the
instance built from the LAST backend carrying it (earlier ones are
overwritten) and has strictly fewer entries than the backend list, while Run
and End still invoke run and end once per element of the original list,
duplicates included. -/
theorem c10_duplicate_names (f : Sim E → ν) (sims : List (Sim E)) (simtime : ℚ)
    (hdup : ¬(sims.map Sim.name).Nodup)
    (hrun : ∀ s ∈ sims, s.runOp (simtime / ((1 : ℕ) : ℚ)) = Except.ok ())
    (hend : ∀ s ∈ sims, s.endOp = Except.ok ()) :
    (∀ n, lookupNet n (buildNetsOk f sims [])
        = (lastWithName n sims).elim none (fun s => some (f s)))
    ∧ (buildNetsOk f sims []).length < sims.length
    ∧ (MultiSim.run (⟨sims, buildNetsOk f sims []⟩ : MultiSim E ν) simtime 1 []).1
        = sims.map (fun s => Event.simRun s.name (simtime / ((1 : ℕ) : ℚ)))
    ∧ (MultiSim.teardown (⟨sims, buildNetsOk f sims []⟩ : MultiSim E ν)).1
        = sims.map (fun s => Event.simEnd s.name) := by
  refine ⟨fun n => ?_, buildNetsOk_length_lt f sims hdup, ?_, ?_⟩
  · exact lookupNet_buildNetsOk f n sims []
  · have hr := MultiSim.run_ok (⟨sims, buildNetsOk f sims []⟩ : MultiSim E ν)
      simtime 1 [] hrun (fun c hc => by simp at hc)
    rw [hr]
    simp [stepBlock]
  · have he := endSims_ok sims hend
    show (endSims sims).1 = _
    rw [he]

/-- Witness for C10: backends a, b, a (the two "a" backends are distinct
objects); the registry keeps the later "a" instance and has 2 entries for 3
backends, while run and end fire three times each. -/
theorem c10_duplicate_names_witness :
    lookupNet "a" (buildNetsOk (fun s => s) [simA, simB, simAdup] []) = some simAdup
    ∧ simAdup ≠ simA
    ∧ (buildNetsOk (fun (s : Sim String) => s) [simA, simB, simAdup] []).length = 2
    ∧ (2 : ℕ) < 3
    ∧ (MultiSim.run (⟨[simA, simB, simAdup],
          buildNetsOk (fun s => s) [simA, simB, simAdup] []⟩ :
            MultiSim String (Sim String)) 2 1 []).1
      = [Event.simRun "a" 2, Event.simRun "b" 2, Event.simRun "a" 2]
    ∧ (MultiSim.teardown (⟨[simA, simB, simAdup],
          buildNetsOk (fun s => s) [simA, simB, simAdup] []⟩ :
            MultiSim String (Sim String))).1
      = [Event.simEnd "a", Event.simEnd "b", Event.simEnd "a"] := by
  have h := c10_duplicate_names (fun (s : Sim String) => s) [simA, simB, simAdup] 2
    (by simp [simA, simB, simAdup])
    (fun s hs => by
      rcases List.mem_cons.mp hs with rfl | hs2
      · rfl
      · rcases List.mem_cons.mp hs2 with rfl | hs3
        · rfl
        · rcases List.mem_singleton.mp hs3 with rfl
          show (if ((2 : ℚ) / ((1 : ℕ) : ℚ)) < 0 then Except.error "neg"
            else Except.ok ()) = Except.ok ()
          norm_num)
    (fun s hs => by
      rcases List.mem_cons.mp hs with rfl | hs2
      · rfl
      · rcases List.mem_cons.mp hs2 with rfl | hs3
        · rfl
        · rcases List.mem_singleton.mp hs3 with rfl; rfl)
  refine ⟨?_, ?_, rfl, by norm_num, ?_, ?_⟩
  · have h1 := h.1 "a"
    simpa [lastWithName, simA, simB, simAdup] using h1
  · intro heq
    have hco := congrArg (fun s => Sim.runOp s (-1)) heq
    simp only [simAdup, simA] at hco
    norm_num at hco
    exact Except.noConfusion hco
  · have h3 := h.2.2.1
    have hdt : ((2 : ℚ) / ((1 : ℕ) : ℚ)) = 2 := by norm_num
    rw [hdt] at h3
    simpa [simA, simB, simAdup] using h3
  · have h4 := h.2.2.2
    simpa [simA, simB, simAdup] using h4

/-- C1 (amended): Run and End iterate the backends in the registration
order fixed at construction, identically to each other, for every
coordinator whatever its registry holds; the broadcast proxy instead
iterates the registry, which holds one entry per backend name, so no
guarantee ties its iteration order to the registration order (and with
duplicate backend names the two cannot coincide, as the counterexample
shows). -/
theorem c1_iteration_order (sims : List (Sim E)) (nets : List (String × ν))
    (simtime : ℚ)
    (hrun : ∀ s ∈ sims, s.runOp (simtime / ((1 : ℕ) : ℚ)) = Except.ok ())
    (hend : ∀ s ∈ sims, s.endOp = Except.ok ()) :
    backendOrder ((⟨sims, nets⟩ : MultiSim E ν).run simtime 1 []).1
        = sims.map Sim.name
    ∧ backendOrder (MultiSim.teardown (⟨sims, nets⟩ : MultiSim E ν)).1
        = sims.map Sim.name := by
  constructor
  · have hr := MultiSim.run_ok (⟨sims, nets⟩ : MultiSim E ν)
      simtime 1 [] hrun (fun c hc => by simp at hc)
    rw [hr]
    have hb : (List.replicate 1 (stepBlock sims (simtime / ((1 : ℕ) : ℚ))
          ([] : List (Except E Unit)).length)).flatten
        = sims.map (fun s => Event.simRun s.name (simtime / ((1 : ℕ) : ℚ))) := by
      simp [stepBlock]
    show backendOrder (List.replicate 1
      (stepBlock sims (simtime / ((1 : ℕ) : ℚ)) ([] : List (Except E Unit)).length)).flatten = _
    rw [hb]
    exact backendOrder_map_simRun _ sims
  · have he := endSims_ok sims hend
    show backendOrder (endSims sims).1 = _
    rw [he]
    exact backendOrder_map_simEnd sims

/-- Witness for the amended C1: Run and End follow the registration order
a, b, a even though the registry holds only the two entries a, b. -/
theorem c1_iteration_order_witness :
    backendOrder ((⟨[simA, simB, simAdup], [("a", "a"), ("b", "b")]⟩ :
        MultiSim String String).run 2 1 []).1 = ["a", "b", "a"]
    ∧ backendOrder (MultiSim.teardown (⟨[simA, simB, simAdup],
        [("a", "a"), ("b", "b")]⟩ : MultiSim String String)).1
      = ["a", "b", "a"] := by
  have h := c1_iteration_order [simA, simB, simAdup] [("a", "a"), ("b", "b")] 2
    (fun s hs => by
      rcases List.mem_cons.mp hs with rfl | hs2
      · rfl
      · rcases List.mem_cons.mp hs2 with rfl | hs3
        · rfl
        · rcases List.mem_singleton.mp hs3 with rfl
          show (if ((2 : ℚ) / ((1 : ℕ) : ℚ)) < 0 then Except.error "neg"
            else Except.ok ()) = Except.ok ()
          norm_num)
    (fun s hs => by
      rcases List.mem_cons.mp hs with rfl | hs2
      · rfl
      · rcases List.mem_cons.mp hs2 with rfl | hs3
        · rfl
        · rcases List.mem_singleton.mp hs3 with rfl; rfl)
  exact ⟨by simpa [simA, simB, simAdup] using h.1,
    by simpa [simA, simB, simAdup] using h.2⟩

/-- C1 counterexample: a coordinator built from the backend list a, b, a
(two distinct backends sharing the name "a"). Construction succeeds; Run and
End iterate backends in registration order a, b, a, but the broadcast proxy
iterates the registry, which holds one entry per name, in order a, b — so
the iteration order is NOT identical across Invoke, Run and End for every
coordinator, refuting the claim as stated. -/
theorem c1_iteration_order_counterexample :
    (MultiSim.init [simA, simB, simAdup]
        (fun s _ => (Except.ok s.name : Except String String)) ()).2
      = Except.ok ⟨[simA, simB, simAdup], [("a", "a"), ("b", "b")]⟩
    ∧ backendOrder ((⟨[simA, simB, simAdup], [("a", "a"), ("b", "b")]⟩ :
          MultiSim String String).invoke
            (fun v => (Except.ok v : Except String String))).1
        = ["a", "b"]
    ∧ backendOrder ((⟨[simA, simB, simAdup], [("a", "a"), ("b", "b")]⟩ :
          MultiSim String String).run 2 1 []).1
        = ["a", "b", "a"]
    ∧ backendOrder ((⟨[simA, simB, simAdup], [("a", "a"), ("b", "b")]⟩ :
          MultiSim String String).teardown).1
        = ["a", "b", "a"]
    ∧ (["a", "b"] : List String) ≠ ["a", "b", "a"] := by
  refine ⟨rfl, rfl, ?_, rfl, by decide⟩
  show backendOrder (runSteps [simA, simB, simAdup] ((2 : ℚ) / ((1 : ℕ) : ℚ)) [] 1).1
      = ["a", "b", "a"]
  norm_num
  rfl

end PyNN
